import Mathlib

/-!
# Verification of the rSchedule occurrence-generation core

This file gives a shallow embedding, in Lean 4, of the parts of the
rSchedule recurrence library that the specification's claims talk about:

* the UTC calendar arithmetic backing `DateTime` (monthLength, isLeapYear,
  addUTCMonths, subUTCDays, ... from `packages/core/.../date-time` as included
  at the bottom of `src/packages/core/src/rules/ByMonthOfYear/rule.ts`);
* the `DateTime` value type with its `get`/`set`/`add`/`granularity`
  operations and its timezone-guarded comparisons;
* the `ByMonthOfYearRule.run` constraint stage;
* the `ResultPipe.run` terminal pipe stage
  (`src/packages/rschedule/src/lib/pipes/11-result.pipe.ts`);
* the `Dates#_run` generator loop (`src/packages/core/src/generators/dates.ts`);
* the `UniqueOperator#_run` dedup operator;
* the `ByDayOfMonthRuleModule.normalizeOptions` option validation;
* the `set` update methods of `Rule` and `Dates`.

JavaScript `Date` objects in UTC mode are modelled by a record of a civil
date (base-1 year/month/day) together with the millisecond of the day.
This representation is in bijection with the millisecond timestamp the
runtime stores; the linear ECMAScript normalisation (MakeDay / MakeTime)
is modelled by the day-stepping function `addDays` and by floor
division/remainder on the millisecond of the day.  Instants are compared
through `valueOf`, their millisecond timestamp, recovered with the
standard days-from-civil conversion.
-/

/-- From the source (`isLeapYear`): a year is a leap year when it is
divisible by 400, or divisible by 4 and not by 100.  On `Int`, the
JavaScript remainder and the Lean remainder agree on the `= 0` tests. -/
def isLeapYear (year : Int) : Bool :=
  year % 400 == 0 || (year % 4 == 0 && year % 100 != 0)

/-- From the source (`getDaysInFebruary`). -/
def getDaysInFebruary (year : Int) : Int :=
  if isLeapYear year then 29 else 28

/-- From the source (`monthLength`): number of days of a base-1 month.
The source looks the month up in a record with keys 1..12; a lookup
outside that range is undefined and is modelled as 0 (never used on a
valid date). -/
def monthLength (month year : Int) : Int :=
  if month = 1 then 31
  else if month = 2 then getDaysInFebruary year
  else if month = 3 then 31
  else if month = 4 then 30
  else if month = 5 then 31
  else if month = 6 then 30
  else if month = 7 then 31
  else if month = 8 then 31
  else if month = 9 then 30
  else if month = 10 then 31
  else if month = 11 then 30
  else if month = 12 then 31
  else 0

/-- Model of a JavaScript `Date` in UTC mode: a civil date (base-1
month/day) plus the millisecond of the day.  JS stores a single
millisecond timestamp; this record is the field view of that timestamp,
with `month` the base-1 month (`getUTCMonth() + 1`). -/
structure JsDate where
  year : Int
  month : Int
  day : Int
  /-- millisecond of the day, `0 ≤ tod < 86400000` on a normalised date -/
  tod : Int
deriving DecidableEq, Repr

/-- A normalised (valid) JS date: month 1..12, day within the month,
millisecond of day within range. -/
def JsDate.Valid (d : JsDate) : Prop :=
  1 ≤ d.month ∧ d.month ≤ 12 ∧ 1 ≤ d.day ∧ d.day ≤ monthLength d.month d.year ∧
    0 ≤ d.tod ∧ d.tod < 86400000

instance (d : JsDate) : Decidable d.Valid := by
  unfold JsDate.Valid; infer_instance

/-- One step forward on the UTC day timeline. -/
def incDay (d : JsDate) : JsDate :=
  if d.day < monthLength d.month d.year then { d with day := d.day + 1 }
  else if d.month < 12 then { d with month := d.month + 1, day := 1 }
  else { d with year := d.year + 1, month := 1, day := 1 }

/-- One step backward on the UTC day timeline. -/
def decDay (d : JsDate) : JsDate :=
  if 1 < d.day then { d with day := d.day - 1 }
  else if 1 < d.month then { d with month := d.month - 1, day := monthLength (d.month - 1) d.year }
  else { d with year := d.year - 1, month := 12, day := 31 }

/-- Move a JS date by `n` days on the UTC day timeline (the day-count
part of ECMAScript MakeDay normalisation). -/
def addDays (d : JsDate) (n : Int) : JsDate :=
  if 0 < n then addDays (incDay d) (n - 1)
  else if n < 0 then addDays (decDay d) (n + 1)
  else d
termination_by n.natAbs
decreasing_by
  · omega
  · omega

/-- ECMAScript `MakeDay(y, m, d)` (as invoked by the `setUTC*` methods):
the month index `m0` (base 0) is normalised by floor division, and the
day value is applied as an offset from the first of that month, rolling
across month boundaries. -/
def jsMakeDay (y m0 dv tod : Int) : JsDate :=
  addDays { year := y + m0 / 12, month := m0 % 12 + 1, day := 1, tod := tod } (dv - 1)

/-- Shift a JS date by an amount of milliseconds (the timestamp is
linear in milliseconds; the field view moves by whole days plus a new
millisecond of day). -/
def addMs (d : JsDate) (amount : Int) : JsDate :=
  let total := d.tod + amount
  { addDays d (total / 86400000) with tod := total % 86400000 }

/-- JS `setUTCFullYear` (single-argument form): keep month and day,
re-resolving the day against the new year (Feb 29 rolls forward when the
new year is not a leap year, per MakeDay). -/
def setUTCFullYear (d : JsDate) (v : Int) : JsDate :=
  jsMakeDay v (d.month - 1) d.day d.tod

/-- JS `setUTCMonth(month)` with a base-0 month index. -/
def setUTCMonth (d : JsDate) (m0 : Int) : JsDate :=
  jsMakeDay d.year m0 d.day d.tod

/-- JS `setUTCMonth(month, day)` (two-argument form, used by `addUTCMonths`). -/
def setUTCMonthDay (d : JsDate) (m0 dv : Int) : JsDate :=
  jsMakeDay d.year m0 dv d.tod

/-- JS `setUTCDate`. -/
def setUTCDate (d : JsDate) (v : Int) : JsDate :=
  jsMakeDay d.year (d.month - 1) v d.tod

/-- JS `setUTCHours` (single argument): replace the hour, keeping
minute/second/millisecond; linear in milliseconds. -/
def setUTCHours (d : JsDate) (v : Int) : JsDate :=
  addMs d ((v * 3600000 + d.tod % 3600000) - d.tod)

/-- JS `setUTCMinutes` (single argument). -/
def setUTCMinutes (d : JsDate) (v : Int) : JsDate :=
  addMs d ((d.tod / 3600000 * 3600000 + v * 60000 + d.tod % 60000) - d.tod)

/-- JS `setUTCSeconds` (single argument). -/
def setUTCSeconds (d : JsDate) (v : Int) : JsDate :=
  addMs d ((d.tod - d.tod % 60000 + v * 1000 + d.tod % 1000) - d.tod)

/-- JS `setUTCMilliseconds`. -/
def setUTCMilliseconds (d : JsDate) (v : Int) : JsDate :=
  addMs d ((d.tod - d.tod % 1000 + v) - d.tod)

/-- From the source (`addUTCMilliseconds`). -/
def addUTCMilliseconds (date : JsDate) (input : Int) : JsDate :=
  addMs date input

/-- From the source (`addUTCDays`): adds milliseconds rather than days,
suppressing daylight-saving adjustments (always UTC here). -/
def addUTCDays (date : JsDate) (input : Int) : JsDate :=
  addUTCMilliseconds date (input * 86400000)

/-- From the source (`addUTCWeeks`). -/
def addUTCWeeks (date : JsDate) (input : Int) : JsDate :=
  addUTCDays date (input * 7)

/-- From the source (`addUTCHours`). -/
def addUTCHours (date : JsDate) (input : Int) : JsDate :=
  addMs date (input * 3600000)

/-- From the source (`addUTCMinutes`). -/
def addUTCMinutes (date : JsDate) (input : Int) : JsDate :=
  addMs date (input * 60000)

/-- From the source (`addUTCSeconds`). -/
def addUTCSeconds (date : JsDate) (input : Int) : JsDate :=
  addMs date (input * 1000)

/-- From the source (`addUTCMonths`): computes the desired month, takes
the length of the (normalised) target month, and sets month and day
together, clamping the day to the last day of the target month. -/
def addUTCMonths (date : JsDate) (input : Int) : JsDate :=
  let desiredMonth := (date.month - 1) + input
  let ny := date.year + desiredMonth / 12
  let nm := desiredMonth % 12 + 1
  let daysInMonth := monthLength nm ny
  setUTCMonthDay date desiredMonth (min daysInMonth date.day)

/-- From the source (`addUTCYears`). -/
def addUTCYears (date : JsDate) (input : Int) : JsDate :=
  addUTCMonths date (input * 12)

/-- From the source (`subUTCYears`). -/
def subUTCYears (date : JsDate) (amount : Int) : JsDate :=
  addUTCYears date (-amount)

/-- From the source (`subUTCMonths`). -/
def subUTCMonths (date : JsDate) (amount : Int) : JsDate :=
  addUTCMonths date (-amount)

/-- From the source (`subUTCWeeks`). -/
def subUTCWeeks (date : JsDate) (amount : Int) : JsDate :=
  addUTCWeeks date (-amount)

/-- From the source (`subUTCDays`). -/
def subUTCDays (date : JsDate) (amount : Int) : JsDate :=
  addUTCDays date (-amount)

/-- Days between the civil epoch 1970-01-01 and a civil date
(Howard Hinnant's days-from-civil algorithm); this is the timestamp the
JS runtime stores, used by `valueOf`. -/
def daysFromCivil (y m d : Int) : Int :=
  let y2 := if m ≤ 2 then y - 1 else y
  let era := y2 / 400
  let yoe := y2 - era * 400
  let doy := (153 * (m + (if 2 < m then -3 else 9)) + 2) / 5 + d - 1
  let doe := yoe * 365 + yoe / 4 - yoe / 100 + doy
  era * 146097 + doe - 719468

/-- The millisecond timestamp of a JS date (JS `Date.prototype.valueOf`). -/
def JsDate.toMillis (d : JsDate) : Int :=
  daysFromCivil d.year d.month d.day * 86400000 + d.tod

example : JsDate.toMillis { year := 1970, month := 1, day := 1, tod := 0 } = 0 := by decide
example : JsDate.toMillis { year := 2019, month := 1, day := 1, tod := 0 } = 1546300800000 := by
  decide

/-- The time units of `DateAdapter.TimeUnit` (the `duration` pseudo-unit
of `DateTime#set` is modelled separately by `DateTime.setDuration`). -/
inductive TimeUnit where
  | year | month | day | hour | minute | second | millisecond
deriving DecidableEq, Repr

/-- The core `DateTime`: an immutable timezone-aware instant.  `none`
models the JS `null` timezone; `duration` is a length of time in
milliseconds.  (The `generators` metadata array is not modelled.) -/
structure DateTime where
  date : JsDate
  timezone : Option String
  duration : Int
deriving DecidableEq, Repr

namespace DateTime

/-- `DateTime#valueOf`: the millisecond timestamp. -/
def valueOf (d : DateTime) : Int := d.date.toMillis

/-- The private `forkDateTime`: a new `DateTime` around a new date,
keeping timezone and duration. -/
def forkDateTime (d : DateTime) (date : JsDate) : DateTime :=
  { d with date := date }

/-- `DateTime#get` for the numeric units (base-1 month, as in the source
`this.date.getUTCMonth() + 1`). -/
def get (d : DateTime) (unit : TimeUnit) : Int :=
  match unit with
  | .year => d.date.year
  | .month => d.date.month
  | .day => d.date.day
  | .hour => d.date.tod / 3600000
  | .minute => d.date.tod % 3600000 / 60000
  | .second => d.date.tod % 60000 / 1000
  | .millisecond => d.date.tod % 1000

/-- `DateTime#set` for the calendar units.  The `month` case carries the
source's clamping logic: when the current day of the month is greater
than the length of the target month, the day is first set to 1, the
month is set with a base-1 value interpreted as a base-0 index (landing
on the first day of the month after the target), and one day is
subtracted. -/
def set (d : DateTime) (unit : TimeUnit) (value : Int) : DateTime :=
  match unit with
  | .year => d.forkDateTime (setUTCFullYear d.date value)
  | .month =>
    let length := monthLength value d.date.year
    let day := d.date.day
    if day > length then
      d.forkDateTime (subUTCDays (setUTCMonth (setUTCDate d.date 1) value) 1)
    else
      d.forkDateTime (setUTCMonth d.date (value - 1))
  | .day => d.forkDateTime (setUTCDate d.date value)
  | .hour => d.forkDateTime (setUTCHours d.date value)
  | .minute => d.forkDateTime (setUTCMinutes d.date value)
  | .second => d.forkDateTime (setUTCSeconds d.date value)
  | .millisecond => d.forkDateTime (setUTCMilliseconds d.date value)

/-- `DateTime#set` with the `duration` pseudo-unit. -/
def setDuration (d : DateTime) (value : Int) : DateTime :=
  { d with duration := value }

/-- `DateTime#add` (the `week` unit maps to `addUTCWeeks`; the
`generator` pseudo-unit only touches metadata and is not modelled). -/
def add (d : DateTime) (amount : Int) (unit : TimeUnit) : DateTime :=
  match unit with
  | .year => d.forkDateTime (addUTCYears d.date amount)
  | .month => d.forkDateTime (addUTCMonths d.date amount)
  | .day => d.forkDateTime (addUTCDays d.date amount)
  | .hour => d.forkDateTime (addUTCHours d.date amount)
  | .minute => d.forkDateTime (addUTCMinutes d.date amount)
  | .second => d.forkDateTime (addUTCSeconds d.date amount)
  | .millisecond => d.forkDateTime (addUTCMilliseconds d.date amount)

/-- `DateTime#granularity` for the plain time units, with the source's
switch fall-through unrolled case by case (the `week` granularity, which
needs a week-start argument, is not used by the claims and is omitted). -/
def granularity (d : DateTime) (g : TimeUnit) : DateTime :=
  match g with
  | .year =>
    ((((((d.set .month 1).set .day 1).set .hour 0).set .minute 0).set .second 0).set
      .millisecond 0)
  | .month =>
    (((((d.set .day 1).set .hour 0).set .minute 0).set .second 0).set .millisecond 0)
  | .day => ((((d.set .hour 0).set .minute 0).set .second 0).set .millisecond 0)
  | .hour => (((d.set .minute 0).set .second 0).set .millisecond 0)
  | .minute => ((d.set .second 0).set .millisecond 0)
  | .second => d.set .millisecond 0
  | .millisecond => d

end DateTime

/-- The error raised by `assertSameTimeZone` (an `InvalidDateTimeError`
in the source). -/
inductive InvalidDateTimeError where
  | comparedAcrossTimezones
deriving DecidableEq, Repr

/-- From the source (`assertSameTimeZone`): comparing two instants whose
timezone labels differ raises an `InvalidDateTimeError`. -/
def assertSameTimeZone (x y : DateTime) : Except InvalidDateTimeError Unit :=
  if x.timezone ≠ y.timezone then .error .comparedAcrossTimezones
  else .ok ()

namespace DateTime

/-- `DateTime#isEqual`: a missing argument compares as `false` before
the timezone assertion runs. -/
def isEqual (d : DateTime) (object : Option DateTime) : Except InvalidDateTimeError Bool :=
  match object with
  | none => .ok false
  | some o =>
    match assertSameTimeZone d o with
    | .error e => .error e
    | .ok _ => .ok (d.valueOf == o.valueOf)

/-- `DateTime#isBefore`. -/
def isBefore (d o : DateTime) : Except InvalidDateTimeError Bool :=
  match assertSameTimeZone d o with
  | .error e => .error e
  | .ok _ => .ok (d.valueOf < o.valueOf)

/-- `DateTime#isBeforeOrEqual`. -/
def isBeforeOrEqual (d o : DateTime) : Except InvalidDateTimeError Bool :=
  match assertSameTimeZone d o with
  | .error e => .error e
  | .ok _ => .ok (d.valueOf ≤ o.valueOf)

/-- `DateTime#isAfter`. -/
def isAfter (d o : DateTime) : Except InvalidDateTimeError Bool :=
  match assertSameTimeZone d o with
  | .error e => .error e
  | .ok _ => .ok (o.valueOf < d.valueOf)

/-- `DateTime#isAfterOrEqual`. -/
def isAfterOrEqual (d o : DateTime) : Except InvalidDateTimeError Bool :=
  match assertSameTimeZone d o with
  | .error e => .error e
  | .ok _ => .ok (o.valueOf ≤ d.valueOf)

end DateTime

theorem getDaysInFebruary_bounds (y : Int) :
    28 ≤ getDaysInFebruary y ∧ getDaysInFebruary y ≤ 29 := by
  unfold getDaysInFebruary
  cases h : isLeapYear y
  · rw [if_neg (by simp [h])]; omega
  · rw [if_pos (by simp [h])]; omega

theorem monthLength_bounds (m y : Int) (h1 : 1 ≤ m) (h2 : m ≤ 12) :
    28 ≤ monthLength m y ∧ monthLength m y ≤ 31 := by
  have hf := getDaysInFebruary_bounds y
  interval_cases m <;> simp [monthLength] <;> omega

theorem isLeapYear_iff (y : Int) :
    isLeapYear y = true ↔ (y % 400 = 0 ∨ (y % 4 = 0 ∧ y % 100 ≠ 0)) := by
  unfold isLeapYear
  rw [Bool.or_eq_true, Bool.and_eq_true, beq_iff_eq, beq_iff_eq, bne_iff_ne]

theorem monthLength_two (y : Int) : monthLength 2 y = getDaysInFebruary y := by
  unfold monthLength
  rw [if_neg (by norm_num), if_pos rfl]

theorem monthLength_feb (y : Int) :
    monthLength 2 y = if y % 400 = 0 ∨ (y % 4 = 0 ∧ y % 100 ≠ 0) then 29 else 28 := by
  rw [monthLength_two]
  unfold getDaysInFebruary
  by_cases h : y % 400 = 0 ∨ (y % 4 = 0 ∧ y % 100 ≠ 0)
  · rw [if_pos ((isLeapYear_iff y).mpr h), if_pos h]
  · rw [if_neg (fun hb => h ((isLeapYear_iff y).mp hb)), if_neg h]

theorem addDays_zero (d : JsDate) : addDays d 0 = d := by
  rw [addDays]
  norm_num

theorem addDays_one (d : JsDate) : addDays d 1 = incDay d := by
  rw [addDays]
  norm_num
  exact addDays_zero _

theorem addDays_neg_one (d : JsDate) : addDays d (-1) = decDay d := by
  rw [addDays]
  norm_num
  exact addDays_zero _

theorem addDays_within (k : Nat) :
    ∀ d : JsDate, 1 ≤ d.day → d.day + k ≤ monthLength d.month d.year →
      addDays d k = { d with day := d.day + k } := by
  induction k with
  | zero => intro d _ _; simpa using addDays_zero d
  | succ n ih =>
    rintro ⟨y, mo, da, t⟩ hd1 hd2
    simp only at hd1 hd2 ⊢
    have hcast : ((n + 1 : Nat) : Int) = (n : Int) + 1 := by push_cast; ring
    rw [hcast] at hd2 ⊢
    have hlt : da < monthLength mo y := by omega
    have hstep : incDay ⟨y, mo, da, t⟩ = ⟨y, mo, da + 1, t⟩ := by
      unfold incDay
      rw [if_pos hlt]
    rw [addDays, if_pos (by omega : (0 : Int) < (n : Int) + 1), hstep,
      (by ring : (n : Int) + 1 - 1 = (n : Int)),
      ih ⟨y, mo, da + 1, t⟩ (by simp; omega) (by simp; omega)]
    simp
    omega

theorem jsMakeDay_within (y m0 dv tod : Int) (hm0 : 0 ≤ m0) (hm1 : m0 ≤ 11)
    (hdv1 : 1 ≤ dv) (hdv2 : dv ≤ monthLength (m0 + 1) y) :
    jsMakeDay y m0 dv tod = { year := y, month := m0 + 1, day := dv, tod := tod } := by
  unfold jsMakeDay
  have h1 : m0 / 12 = 0 := by omega
  have h2 : m0 % 12 = m0 := by omega
  rw [h1, h2]
  have hk : (dv - 1).toNat = dv - 1 := by omega
  have := addDays_within (dv - 1).toNat { year := y + 0, month := m0 + 1, day := 1, tod := tod }
    (by simp) (by simp [hk]; omega)
  rw [hk] at this
  simpa using this

theorem jsMakeDay_dec (y tod : Int) : jsMakeDay y 12 1 tod =
    { year := y + 1, month := 1, day := 1, tod := tod } := by
  unfold jsMakeDay
  norm_num
  exact addDays_zero _

theorem incDay_tod (d : JsDate) : (incDay d).tod = d.tod := by
  unfold incDay
  split_ifs <;> rfl

theorem decDay_tod (d : JsDate) : (decDay d).tod = d.tod := by
  unfold decDay
  split_ifs <;> rfl

theorem addMs_small (d : JsDate) (amount : Int) (h0 : 0 ≤ d.tod + amount)
    (h1 : d.tod + amount < 86400000) : addMs d amount = { d with tod := d.tod + amount } := by
  simp only [addMs]
  have hdiv : (d.tod + amount) / 86400000 = 0 := by omega
  have hmod : (d.tod + amount) % 86400000 = d.tod + amount := by omega
  rw [hdiv, hmod, addDays_zero]

theorem setUTCDate_one (d : JsDate) (hv : d.Valid) : setUTCDate d 1 = { d with day := 1 } := by
  obtain ⟨hm1, hm2, _, _, _, _⟩ := hv
  unfold setUTCDate
  have hlen := monthLength_bounds d.month d.year hm1 hm2
  have h := jsMakeDay_within d.year (d.month - 1) 1 d.tod (by omega) (by omega) (by omega)
    (by rw [(by ring : d.month - 1 + 1 = d.month)]; omega)
  rw [h]
  have hmm : d.month - 1 + 1 = d.month := by ring
  rw [hmm]

theorem subUTCDays_one (d : JsDate) (ht0 : 0 ≤ d.tod) (ht1 : d.tod < 86400000) :
    subUTCDays d 1 = decDay d := by
  simp only [subUTCDays, addUTCDays, addUTCMilliseconds, addMs]
  have hdiv : (d.tod + -1 * 86400000) / 86400000 = -1 := by omega
  have hmod : (d.tod + -1 * 86400000) % 86400000 = d.tod := by omega
  rw [hdiv, hmod, addDays_neg_one]
  rw [(by rw [decDay_tod] : d.tod = (decDay d).tod)]

theorem setUTCHours_eq (d : JsDate) (v : Int) (ht0 : 0 ≤ d.tod) (ht1 : d.tod < 86400000)
    (hv0 : 0 ≤ v) (hv1 : v ≤ 23) :
    setUTCHours d v = { d with tod := v * 3600000 + d.tod % 3600000 } := by
  unfold setUTCHours
  rw [addMs_small d _ (by omega) (by omega)]
  have h : d.tod + (v * 3600000 + d.tod % 3600000 - d.tod) = v * 3600000 + d.tod % 3600000 := by
    ring
  rw [h]

theorem setUTCMinutes_eq (d : JsDate) (v : Int) (ht0 : 0 ≤ d.tod) (ht1 : d.tod < 86400000)
    (hv0 : 0 ≤ v) (hv1 : v ≤ 59) :
    setUTCMinutes d v =
      { d with tod := d.tod / 3600000 * 3600000 + v * 60000 + d.tod % 60000 } := by
  unfold setUTCMinutes
  rw [addMs_small d _ (by omega) (by omega)]
  have h : d.tod + (d.tod / 3600000 * 3600000 + v * 60000 + d.tod % 60000 - d.tod) =
      d.tod / 3600000 * 3600000 + v * 60000 + d.tod % 60000 := by ring
  rw [h]

theorem setUTCSeconds_eq (d : JsDate) (v : Int) (ht0 : 0 ≤ d.tod) (ht1 : d.tod < 86400000)
    (hv0 : 0 ≤ v) (hv1 : v ≤ 59) :
    setUTCSeconds d v = { d with tod := d.tod - d.tod % 60000 + v * 1000 + d.tod % 1000 } := by
  unfold setUTCSeconds
  rw [addMs_small d _ (by omega) (by omega)]
  have h : d.tod + (d.tod - d.tod % 60000 + v * 1000 + d.tod % 1000 - d.tod) =
      d.tod - d.tod % 60000 + v * 1000 + d.tod % 1000 := by ring
  rw [h]

theorem setUTCMilliseconds_eq (d : JsDate) (v : Int) (ht0 : 0 ≤ d.tod) (ht1 : d.tod < 86400000)
    (hv0 : 0 ≤ v) (hv1 : v ≤ 999) :
    setUTCMilliseconds d v = { d with tod := d.tod - d.tod % 1000 + v } := by
  unfold setUTCMilliseconds
  rw [addMs_small d _ (by omega) (by omega)]
  have h : d.tod + (d.tod - d.tod % 1000 + v - d.tod) = d.tod - d.tod % 1000 + v := by ring
  rw [h]

/-- The clamping behaviour of `DateTime#set` on the `month` unit: the
calendar day is kept when it fits in the target month and clamped to the
last day of that month otherwise, with year and time of day unchanged. -/
theorem DateTime.set_month_eq (d : DateTime) (m : Int) (hv : d.date.Valid)
    (h1 : 1 ≤ m) (h2 : m ≤ 12) :
    (d.set .month m).date =
      { d.date with month := m, day := min d.date.day (monthLength m d.date.year) } := by
  obtain ⟨⟨y, mo, da, t⟩, tz, dur⟩ := d
  obtain ⟨hm1, hm2, hd1, hd2, ht0, ht1⟩ := hv
  simp only at hm1 hm2 hd1 hd2 ht0 ht1
  have hlenm := monthLength_bounds m y h1 h2
  have hlenmo := monthLength_bounds mo y hm1 hm2
  simp only [DateTime.set, DateTime.forkDateTime]
  by_cases hclamp : da > monthLength m y
  · rw [if_pos hclamp]
    have hm11 : m ≤ 11 := by
      by_contra h12
      have : m = 12 := by omega
      subst this
      have : monthLength 12 y = 31 := by simp [monthLength]
      omega
    rw [setUTCDate_one ⟨y, mo, da, t⟩ ⟨hm1, hm2, hd1, hd2, ht0, ht1⟩]
    show subUTCDays (setUTCMonth ⟨y, mo, 1, t⟩ m) 1 = _
    unfold setUTCMonth
    rw [jsMakeDay_within y m 1 t (by omega) hm11
      (by omega) (by have := monthLength_bounds (m + 1) y (by omega) (by omega); omega)]
    rw [subUTCDays_one ⟨y, m + 1, 1, t⟩ (by simpa using ht0) (by simpa using ht1)]
    unfold decDay
    rw [if_neg (by simp), if_pos (by simp; omega)]
    simp
    omega
  · rw [if_neg hclamp]
    unfold setUTCMonth
    rw [jsMakeDay_within y (m - 1) da t (by omega) (by omega) (by omega)
      (by rw [(by ring : m - 1 + 1 = m)]; omega)]
    simp
    omega

theorem JsDate.valid_mk_iff (y m dv t : Int) :
    (JsDate.mk y m dv t).Valid ↔
      1 ≤ m ∧ m ≤ 12 ∧ 1 ≤ dv ∧ dv ≤ monthLength m y ∧ 0 ≤ t ∧ t < 86400000 :=
  Iff.rfl

theorem DateTime.ext_fields (a b : DateTime) (h1 : a.date = b.date)
    (h2 : a.timezone = b.timezone) (h3 : a.duration = b.duration) : a = b := by
  obtain ⟨ad, atz, adur⟩ := a
  obtain ⟨bd, btz, bdur⟩ := b
  simp only at h1 h2 h3
  rw [h1, h2, h3]

theorem DateTime.set_timezone (d : DateTime) (u : TimeUnit) (v : Int) :
    (d.set u v).timezone = d.timezone := by
  cases u
  all_goals simp only [DateTime.set, DateTime.forkDateTime]
  all_goals try rfl
  split_ifs <;> rfl

theorem DateTime.set_duration_field (d : DateTime) (u : TimeUnit) (v : Int) :
    (d.set u v).duration = d.duration := by
  cases u
  all_goals simp only [DateTime.set, DateTime.forkDateTime]
  all_goals try rfl
  split_ifs <;> rfl

theorem DateTime.set_eq_mk (d : DateTime) (u : TimeUnit) (v : Int) (target : JsDate)
    (h : (d.set u v).date = target) :
    d.set u v = DateTime.mk target d.timezone d.duration :=
  DateTime.ext_fields _ _ h (DateTime.set_timezone d u v) (DateTime.set_duration_field d u v)

/-- `DateTime#granularity` with the `year` unit truncates a valid
instant to midnight, January 1st of its year. -/
theorem DateTime.granularity_year_eq (d : DateTime) (hv : d.date.Valid) :
    (d.granularity .year).date =
      { year := d.date.year, month := 1, day := 1, tod := 0 } := by
  obtain ⟨⟨y, mo, da, t⟩, tz, dur⟩ := d
  rw [JsDate.valid_mk_iff] at hv
  obtain ⟨hm1, hm2, hd1, hd2, ht0, ht1⟩ := hv
  have hml1 : monthLength 1 y = 31 := by simp [monthLength]
  have hlenmo := monthLength_bounds mo y hm1 hm2
  show (((((((DateTime.mk ⟨y, mo, da, t⟩ tz dur).set .month 1).set .day 1).set .hour 0).set
    .minute 0).set .second 0).set .millisecond 0).date = _
  rw [DateTime.set_eq_mk (DateTime.mk ⟨y, mo, da, t⟩ tz dur) .month 1 ⟨y, 1, da, t⟩ (by
    rw [DateTime.set_month_eq _ 1 (by rw [JsDate.valid_mk_iff]; exact ⟨hm1, hm2, hd1, hd2, ht0, ht1⟩)
      (by omega) (by omega)]
    simp [JsDate.mk.injEq, hml1]
    omega)]
  rw [DateTime.set_eq_mk (DateTime.mk ⟨y, 1, da, t⟩ tz dur) .day 1 ⟨y, 1, 1, t⟩ (by
    simp only [DateTime.set, DateTime.forkDateTime]
    rw [setUTCDate_one ⟨y, 1, da, t⟩ (by rw [JsDate.valid_mk_iff, hml1]; omega)])]
  rw [DateTime.set_eq_mk (DateTime.mk ⟨y, 1, 1, t⟩ tz dur) .hour 0 ⟨y, 1, 1, t % 3600000⟩ (by
    simp only [DateTime.set, DateTime.forkDateTime]
    rw [setUTCHours_eq ⟨y, 1, 1, t⟩ 0 ht0 ht1 (by omega) (by omega)]
    simp)]
  rw [DateTime.set_eq_mk (DateTime.mk ⟨y, 1, 1, t % 3600000⟩ tz dur) .minute 0
    ⟨y, 1, 1, t % 3600000 % 60000⟩ (by
    simp only [DateTime.set, DateTime.forkDateTime]
    rw [setUTCMinutes_eq ⟨y, 1, 1, t % 3600000⟩ 0 (by simp; omega) (by simp; omega)
      (by omega) (by omega)]
    simp
    omega)]
  rw [DateTime.set_eq_mk (DateTime.mk ⟨y, 1, 1, t % 3600000 % 60000⟩ tz dur) .second 0
    ⟨y, 1, 1, t % 3600000 % 60000 % 1000⟩ (by
    simp only [DateTime.set, DateTime.forkDateTime]
    rw [setUTCSeconds_eq ⟨y, 1, 1, t % 3600000 % 60000⟩ 0 (by simp; omega) (by simp; omega)
      (by omega) (by omega)]
    simp)]
  simp only [DateTime.set, DateTime.forkDateTime]
  rw [setUTCMilliseconds_eq ⟨y, 1, 1, t % 3600000 % 60000 % 1000⟩ 0 (by simp; omega)
    (by simp; omega) (by omega) (by omega)]
  simp only [JsDate.mk.injEq]
  refine ⟨trivial, trivial, trivial, by omega⟩

/-- Adding one year to midnight January 1st lands on midnight January
1st of the next year. -/
theorem addUTCYears_jan1 (y t : Int) :
    addUTCYears ⟨y, 1, 1, t⟩ 1 = ⟨y + 1, 1, 1, t⟩ := by
  unfold addUTCYears addUTCMonths setUTCMonthDay
  norm_num
  have hlen : monthLength 1 (y + 1) = 31 := by simp [monthLength]
  rw [hlen]
  norm_num
  exact jsMakeDay_dec y t

/-- Adding one year to midnight January 1st lands on midnight January
1st of the next year (instance of `addUTCYears`). -/
theorem addUTCYears_one_jan1 (y t : Int) :
    addUTCYears ⟨y, 1, 1, t⟩ 1 = ⟨y + 1, 1, 1, t⟩ := by
  unfold addUTCYears addUTCMonths setUTCMonthDay
  norm_num
  have hlen : monthLength 1 (y + 1) = 31 := by simp [monthLength]
  rw [hlen]
  norm_num
  exact jsMakeDay_dec y t

/-- Setting the month of midnight January 1st gives midnight on the
first of the target month (instance of `DateTime.set_month_eq`). -/
theorem DateTime.set_month_jan1 (y m : Int) (tz : Option String) (dur : Int)
    (h1 : 1 ≤ m) (h2 : m ≤ 12) :
    (DateTime.mk ⟨y, 1, 1, 0⟩ tz dur).set .month m = DateTime.mk ⟨y, m, 1, 0⟩ tz dur := by
  apply DateTime.set_eq_mk
  rw [DateTime.set_month_eq _ m
    (by rw [JsDate.valid_mk_iff]; have := monthLength_bounds 1 y (by omega) (by omega); omega)
    h1 h2]
  have := monthLength_bounds m y h1 h2
  simp only [JsDate.mk.injEq]
  refine ⟨trivial, trivial, by omega, trivial⟩

/-- The result type of a constraint stage: the candidate is either
confirmed (`ValidDateTime`) or rejected with a repaired candidate
(`InvalidDateTime`). -/
inductive RuleResult where
  | valid (date : DateTime)
  | invalid (date : DateTime)
deriving DecidableEq, Repr

/-- Modelled from the spec: `RecurrenceRuleBase#validateDate`
(`packages/core/src/rules/utilities/recurrence-rule-base.ts` is not part
of the provided sources).  A constraint stage hands its decision — valid
candidate, or invalid candidate with an analytically repaired date — to
the shared base class, which passes the decision on unchanged. -/
def validateDate (r : RuleResult) : RuleResult := r

/-- `ByMonthOfYearRule#run`, the loop over the `byMonthOfYear` list:
months smaller than the candidate's month are skipped, an exact match
confirms the candidate, and the first larger month produces an
invalid-with-repair result at the start of that month; when the list is
exhausted the repair jumps to the first listed month of the next year.
The `all` parameter carries the whole list for the final
`byMonthOfYear[0]` access. -/
def ByMonthOfYearRule.runLoop (date : DateTime) (currentMonth : Int) (all : List Int) :
    List Int → RuleResult
  | [] =>
    validateDate (.invalid (((date.granularity .year).add 1 .year).set .month all.headI))
  | month :: rest =>
    if currentMonth > month then ByMonthOfYearRule.runLoop date currentMonth all rest
    else if currentMonth = month then validateDate (.valid date)
    else validateDate (.invalid ((date.granularity .year).set .month month))

/-- `ByMonthOfYearRule#run` (`src/packages/core/src/rules/ByMonthOfYear/rule.ts`). -/
def ByMonthOfYearRule.run (byMonthOfYear : List Int) (date : DateTime) : RuleResult :=
  ByMonthOfYearRule.runLoop date (date.get .month) byMonthOfYear byMonthOfYear

theorem DateTime.granularity_year_mk (d : DateTime) (hv : d.date.Valid) :
    d.granularity .year = DateTime.mk ⟨d.date.year, 1, 1, 0⟩ d.timezone d.duration := by
  apply DateTime.ext_fields
  · exact DateTime.granularity_year_eq d hv
  · simp only [DateTime.granularity, DateTime.set_timezone]
  · simp only [DateTime.granularity, DateTime.set_duration_field]

theorem DateTime.add_year_jan1 (y : Int) (tz : Option String) (dur : Int) :
    (DateTime.mk ⟨y, 1, 1, 0⟩ tz dur).add 1 .year = DateTime.mk ⟨y + 1, 1, 1, 0⟩ tz dur := by
  simp only [DateTime.add, DateTime.forkDateTime]
  rw [addUTCYears_one_jan1]

theorem ByMonthOfYearRule.runLoop_spec (d : DateTime) (hv : d.date.Valid) (all : List Int)
    (hall1 : 1 ≤ all.headI) (hall2 : all.headI ≤ 12) :
    ∀ rest : List Int, rest.Sorted (· < ·) → (∀ x ∈ rest, 1 ≤ x ∧ x ≤ 12) →
      ByMonthOfYearRule.runLoop d d.date.month all rest =
        if d.date.month ∈ rest then RuleResult.valid d
        else
          match (rest.filter (fun x => d.date.month < x)).head? with
          | some m =>
            RuleResult.invalid (DateTime.mk ⟨d.date.year, m, 1, 0⟩ d.timezone d.duration)
          | none =>
            RuleResult.invalid
              (DateTime.mk ⟨d.date.year + 1, all.headI, 1, 0⟩ d.timezone d.duration) := by
  intro rest
  induction rest with
  | nil =>
    intro _ _
    simp only [ByMonthOfYearRule.runLoop, validateDate]
    rw [DateTime.granularity_year_mk d hv, DateTime.add_year_jan1,
      DateTime.set_month_jan1 _ _ _ _ hall1 hall2]
    simp
  | cons m rest ih =>
    intro hsorted hrange
    rw [List.sorted_cons] at hsorted
    obtain ⟨hm_lt, hsorted_rest⟩ := hsorted
    have hmr := hrange m (List.mem_cons_self m rest)
    rcases lt_trichotomy m d.date.month with hlt | heq | hgt
    · rw [ByMonthOfYearRule.runLoop, if_pos hlt,
        ih hsorted_rest (fun x hx => hrange x (List.mem_cons_of_mem m hx))]
      have hfc : (m :: rest).filter (fun x => d.date.month < x) =
          rest.filter (fun x => d.date.month < x) := by
        rw [List.filter_cons, if_neg (by simp; omega)]
      by_cases hmem : d.date.month ∈ rest
      · rw [if_pos hmem, if_pos (List.mem_cons_of_mem m hmem)]
      · rw [if_neg hmem, if_neg (by
          intro hc
          rcases List.mem_cons.mp hc with h | h
          · omega
          · exact hmem h), hfc]
    · rw [ByMonthOfYearRule.runLoop, if_neg (by omega), if_pos heq.symm,
        if_pos (heq ▸ List.mem_cons_self m rest)]
      rfl
    · rw [ByMonthOfYearRule.runLoop, if_neg (by omega), if_neg (by omega),
        if_neg (by
          intro hc
          rcases List.mem_cons.mp hc with h | h
          · omega
          · exact absurd (hm_lt _ h) (by omega))]
      have hfc : (m :: rest).filter (fun x => d.date.month < x) =
          m :: rest.filter (fun x => d.date.month < x) := by
        rw [List.filter_cons, if_pos (by simp; omega)]
      rw [hfc]
      simp only [List.head?_cons, validateDate]
      rw [DateTime.granularity_year_mk d hv,
        DateTime.set_month_jan1 _ _ _ _ (by omega) (by omega)]

/-- C4: for every valid DateTime `d` and target month `m` (1–12),
`d.set month m` keeps the day-of-month when it fits in month `m` of
`d`'s year and otherwise clamps to the last day of month `m` of that
year — the resulting month is exactly `m` and the year is unchanged, so
the date never rolls into the following month — where the length of
February is 29 exactly when the year is divisible by 400, or divisible
by 4 and not by 100, and 28 otherwise. -/
theorem claim_C4_set_month_clamps (d : DateTime) (m : Int) (hv : d.date.Valid)
    (h1 : 1 ≤ m) (h2 : m ≤ 12) :
    (d.set .month m).date =
      { d.date with
        month := m,
        day := if d.date.day ≤ monthLength m d.date.year then d.date.day
               else monthLength m d.date.year } ∧
    (∀ y : Int, monthLength 2 y = if y % 400 = 0 ∨ (y % 4 = 0 ∧ y % 100 ≠ 0) then 29 else 28) := by
  refine ⟨?_, monthLength_feb⟩
  rw [DateTime.set_month_eq d m hv h1 h2]
  congr 1

/-- Witness for C4 at a concrete input: January 31st 2019 moved to
February clamps to February 28th 2019. -/
theorem claim_C4_witness :
    ((DateTime.mk ⟨2019, 1, 31, 0⟩ none 0).set .month 2).date = ⟨2019, 2, 28, 0⟩ :=
  ((claim_C4_set_month_clamps (DateTime.mk ⟨2019, 1, 31, 0⟩ none 0) 2 (by decide) (by decide)
    (by decide)).1).trans (by decide)

/-- C6: for a valid candidate and a non-empty ascending in-range
`byMonthOfYear` list, the forward by-month stage confirms the candidate
unchanged exactly when its month is listed; otherwise it returns an
invalid-with-repair result at midnight on the 1st of the smallest listed
month greater than the candidate's month in the same year, or, when no
listed month remains in that year, midnight on the 1st of the first
listed month of the next year. -/
theorem claim_C6_by_month_stage (d : DateTime) (months : List Int) (hv : d.date.Valid)
    (hne : months ≠ []) (hsorted : months.Sorted (· < ·))
    (hrange : ∀ x ∈ months, 1 ≤ x ∧ x ≤ 12) :
    ByMonthOfYearRule.run months d =
      if d.date.month ∈ months then RuleResult.valid d
      else
        match (months.filter (fun x => d.date.month < x)).head? with
        | some m =>
          RuleResult.invalid (DateTime.mk ⟨d.date.year, m, 1, 0⟩ d.timezone d.duration)
        | none =>
          RuleResult.invalid
            (DateTime.mk ⟨d.date.year + 1, months.headI, 1, 0⟩ d.timezone d.duration) := by
  have hhead : months.headI ∈ months := by
    cases months with
    | nil => exact absurd rfl hne
    | cons a l => exact List.mem_cons_self a l
  have hh := hrange months.headI hhead
  have hcur : d.get .month = d.date.month := rfl
  unfold ByMonthOfYearRule.run
  rw [hcur]
  exact ByMonthOfYearRule.runLoop_spec d hv months hh.1 hh.2 months hsorted hrange

/-- Witness for C6 at a concrete input: candidate March 16th 2019
against `byMonthOfYear = [2]` repairs to midnight February 1st 2020. -/
theorem claim_C6_witness :
    ByMonthOfYearRule.run [2] (DateTime.mk ⟨2019, 3, 16, 0⟩ none 0) =
      RuleResult.invalid (DateTime.mk ⟨2020, 2, 1, 0⟩ none 0) :=
  (claim_C6_by_month_stage (DateTime.mk ⟨2019, 3, 16, 0⟩ none 0) [2] (by decide) (by decide)
    (by decide) (by decide)).trans (by decide)

/-- State held by a `ResultPipe` across runs: the consecutive
invalid-iteration counter and the previously emitted date (as a
millisecond timestamp). -/
structure ResultPipeState where
  invalidIterationCount : Nat
  previousIterationDate : Option Int
deriving DecidableEq, Repr

/-- The possible outcomes of one `ResultPipe#run` call. -/
inductive ResultPipeOutcome where
  /-- the `Error` thrown when the controller was invalidated by a
  `Rule#options` update -/
  | invalidControllerError
  /-- `null` returned: the sequence is exhausted (candidate beyond the
  end bound, or the defensive non-monotonicity check fired) -/
  | exhausted
  /-- the fatal `PipeError` thrown after too many invalid iterations -/
  | pipeError
  /-- the valid date is returned to the caller -/
  | emit (date : Int)
  /-- `focusedPipe.run` is re-entered with `invalidDate: false` on the
  repaired date -/
  | recurse (date : Int)
deriving DecidableEq, Repr

/-- The end-bound test `this.end && args.date.isAfter(this.end)` of
`ResultPipe#run`. -/
def pastEnd (endOpt : Option Int) (date : Int) : Bool :=
  match endOpt with
  | some e => decide (e < date)
  | none => false

/-- `ResultPipe#run` (`src/packages/rschedule/src/lib/pipes/11-result.pipe.ts`),
as a transition function on the pipe's private state.  `endOpt` is the
traversal's end bound; `date`/`invalidDate` are the fields of the
`IPipeRunFn` argument. -/
def ResultPipe.run (controllerInvalid : Bool) (endOpt : Option Int) (s : ResultPipeState)
    (date : Int) (invalidDate : Bool) : ResultPipeOutcome × ResultPipeState :=
  if controllerInvalid then (.invalidControllerError, s)
  else if pastEnd endOpt date then (.exhausted, s)
  else if invalidDate then
    let count := s.invalidIterationCount + 1
    if count > 50 then (.pipeError, { s with invalidIterationCount := count })
    else (.recurse date, { s with invalidIterationCount := count })
  else
    match s.previousIterationDate with
    | some prev =>
      if date ≤ prev then (.exhausted, s)
      else (.emit date, ⟨0, some date⟩)
    | none => (.emit date, ⟨0, some date⟩)

/-- Runs `ResultPipe#run` on a sequence of consecutive invalid-date
repair iterations and returns the outcome at which the sequence stops: a
thrown error or exhaustion stops the sequence, an ordinary
invalid-with-repair outcome continues with the next repaired date. -/
def ResultPipe.runConsecutiveInvalid (endOpt : Option Int) :
    ResultPipeState → List Int → Option ResultPipeOutcome
  | _, [] => none
  | s, date :: rest =>
    match ResultPipe.run false endOpt s date true with
    | (.recurse d, s2) =>
      match rest with
      | [] => some (.recurse d)
      | _ => ResultPipe.runConsecutiveInvalid endOpt s2 rest
    | (o, _) => some o

theorem pastEnd_false (endOpt : Option Int) (date : Int)
    (hend : ∀ e, endOpt = some e → date ≤ e) : pastEnd endOpt date = false := by
  cases endOpt with
  | none => rfl
  | some e =>
    have := hend e rfl
    simp [pastEnd]
    omega

theorem ResultPipe.run_pipeError (endOpt : Option Int) (s : ResultPipeState) (date : Int)
    (hcount : 50 ≤ s.invalidIterationCount)
    (hend : ∀ e, endOpt = some e → date ≤ e) :
    (ResultPipe.run false endOpt s date true).1 = .pipeError := by
  unfold ResultPipe.run
  rw [if_neg (by simp), if_neg (by rw [pastEnd_false endOpt date hend]; simp),
    if_pos rfl, if_pos (by omega)]

theorem ResultPipe.run_recurse (endOpt : Option Int) (s : ResultPipeState) (date : Int)
    (hcount : s.invalidIterationCount < 50)
    (hend : ∀ e, endOpt = some e → date ≤ e) :
    ResultPipe.run false endOpt s date true =
      (.recurse date, { s with invalidIterationCount := s.invalidIterationCount + 1 }) := by
  unfold ResultPipe.run
  rw [if_neg (by simp), if_neg (by rw [pastEnd_false endOpt date hend]; simp),
    if_pos rfl, if_neg (by omega)]

theorem ResultPipe.runConsecutiveInvalid_pipeError (endOpt : Option Int) :
    ∀ (dates : List Int) (s : ResultPipeState), dates ≠ [] →
      50 < s.invalidIterationCount + dates.length →
      (∀ d ∈ dates, ∀ e, endOpt = some e → d ≤ e) →
      ResultPipe.runConsecutiveInvalid endOpt s dates = some .pipeError := by
  intro dates
  induction dates with
  | nil => intro s hne _ _; exact absurd rfl hne
  | cons date rest ih =>
    intro s _ hlen hend
    by_cases hcount : 50 ≤ s.invalidIterationCount
    · have hfst := ResultPipe.run_pipeError endOpt s date hcount
        (hend date (List.mem_cons_self date rest))
      unfold ResultPipe.runConsecutiveInvalid
      cases hrun : ResultPipe.run false endOpt s date true with
      | mk o s2 =>
        rw [hrun] at hfst
        simp only at hfst
        cases o with
        | recurse d => exact absurd hfst (by simp)
        | pipeError => simp
        | invalidControllerError => simp [hfst]
        | exhausted => simp [hfst]
        | emit d => simp [hfst]
    · have hrun := ResultPipe.run_recurse endOpt s date (by omega)
        (hend date (List.mem_cons_self date rest))
      unfold ResultPipe.runConsecutiveInvalid
      rw [hrun]
      cases rest with
      | nil => simp at hlen; omega
      | cons r2 rest2 =>
        exact ih _ (by simp) (by simp at hlen ⊢; omega)
          (fun d hd => hend d (List.mem_cons_of_mem date hd))

/-- C1: the final pipe stage bounds non-convergence — a run of more than
50 consecutive invalid-date repair iterations (none past the end bound,
none producing a valid occurrence) makes `ResultPipe#run` raise the
fatal `PipeError`, and a candidate past the explicit end bound makes it
signal exhaustion by returning `null` — so an unsatisfiable rule never
loops forever. -/
theorem claim_C1_result_pipe_termination :
    (∀ (endOpt : Option Int) (s : ResultPipeState) (dates : List Int),
      s.invalidIterationCount = 0 → 50 < dates.length →
      (∀ d ∈ dates, ∀ e, endOpt = some e → d ≤ e) →
      ResultPipe.runConsecutiveInvalid endOpt s dates = some .pipeError) ∧
    (∀ (e : Int) (s : ResultPipeState) (date : Int) (invalidDate : Bool),
      e < date →
      ResultPipe.run false (some e) s date invalidDate = (.exhausted, s)) := by
  constructor
  · intro endOpt s dates h0 hlen hend
    apply ResultPipe.runConsecutiveInvalid_pipeError endOpt dates s
    · intro hnil
      rw [hnil] at hlen
      simp at hlen
    · omega
    · exact hend
  · intro e s date inv hlt
    unfold ResultPipe.run
    rw [if_neg (by simp), if_pos (by simp [pastEnd]; omega)]

/-- Witness for C1: from a fresh pipe state, 51 consecutive invalid
iterations raise the `PipeError`, and with end bound 10 a candidate at
11 returns `null`. -/
theorem claim_C1_witness :
    ResultPipe.runConsecutiveInvalid none ⟨0, none⟩ (List.replicate 51 0) =
      some .pipeError ∧
    ResultPipe.run false (some 10) ⟨0, none⟩ 11 true = (.exhausted, ⟨0, none⟩) :=
  ⟨claim_C1_result_pipe_termination.1 none ⟨0, none⟩ (List.replicate 51 0) rfl
    (by simp)
    (fun d _ e he => by simp at he),
   claim_C1_result_pipe_termination.2 10 ⟨0, none⟩ 11 true (by decide)⟩

/-- The `IRunArgs` of a traversal (`start`/`end` bounds, `take` limit,
`reverse` flag), with dates as millisecond ordering keys. -/
structure RunArgs where
  startArg : Option Int := none
  endArg : Option Int := none
  take : Option Nat := none
  reverse : Bool := false
deriving DecidableEq, Repr

/-- The pre-processing of `Dates#_run`
(`src/packages/core/src/generators/dates.ts`): sort the stored
datetimes (`sort(dateTimeSortComparer)`, which orders by millisecond
value — dates are carried here as their millisecond ordering keys, with
durations zero), filter by the `start` and `end` bounds
(`isAfterOrEqual`/`isBeforeOrEqual`), reverse for a reverse traversal,
and apply the `take` limit (the JS `if (args.take)` test is false for a
zero limit). -/
def Dates.processedDates (datetimes : List Int) (args : RunArgs) : List Int :=
  let dates := List.insertionSort (· ≤ ·) datetimes
  let dates := match args.startArg with
    | some s => dates.filter (fun d => s ≤ d)
    | none => dates
  let dates := match args.endArg with
    | some e => dates.filter (fun d => d ≤ e)
    | none => dates
  let dates := if args.reverse then dates.reverse else dates
  match args.take with
  | some t => if t = 0 then dates else dates.take t
  | none => dates

/-- The skip test of `Dates#_run`:
`args.reverse ? skipToDate.isBefore(date) : skipToDate.isAfter(date)`. -/
def skipBeyond (reverse : Bool) (t date : Int) : Bool :=
  if reverse then decide (t < date) else decide (date < t)

/-- The generator loop of `Dates#_run`.  `pending` is the `yieldArgs`
resume instruction carried into the iteration, `date` the current date,
`cache` the remaining `dateCache`, and `instrs` the consumer's responses
to the coming yields (`some t` is a `skipToDate` instruction).  A
`skipToDate` response resets the cache to the full processed list —
the source notes this deliberately lets a consumer go back in time. -/
def Dates.runLoop (dates : List Int) (reverse : Bool) :
    Option Int → Int → List Int → List (Option Int) → List Int
  | some t, date, cache, instrs =>
    if skipBeyond reverse t date then
      match cache with
      | [] => []
      | d :: rest => Dates.runLoop dates reverse (some t) d rest instrs
    else
      Dates.runLoop dates reverse none date cache instrs
  | none, date, cache, instrs =>
    date :: (match instrs with
      | [] =>
        match cache with
        | [] => []
        | d :: rest => Dates.runLoop dates reverse none d rest []
      | i :: restI =>
        match (match i with | some _ => dates | none => cache) with
        | [] => []
        | d :: rest => Dates.runLoop dates reverse i d rest restI)
termination_by pending _ cache instrs =>
  (instrs.length, cache.length, if pending.isSome then 1 else 0)

/-- `Dates#_run`: the sequence of values emitted by one traversal of a
`Dates` generator, given the consumer's resume instructions. -/
def Dates.run (datetimes : List Int) (args : RunArgs) (instrs : List (Option Int)) : List Int :=
  match h : Dates.processedDates datetimes args with
  | [] => []
  | d :: rest => Dates.runLoop (Dates.processedDates datetimes args) args.reverse none d rest instrs

theorem Dates.runLoop_no_instrs (dates : List Int) (reverse : Bool) :
    ∀ (cache : List Int) (d : Int), Dates.runLoop dates reverse none d cache [] = d :: cache := by
  intro cache
  induction cache with
  | nil => intro d; rw [Dates.runLoop]
  | cons c rest ih =>
    intro d
    rw [Dates.runLoop, ih]

theorem Dates.run_no_instrs (datetimes : List Int) (args : RunArgs) :
    Dates.run datetimes args [] = Dates.processedDates datetimes args := by
  unfold Dates.run
  split
  · next h => rw [h]
  · next d rest h => rw [Dates.runLoop_no_instrs, h]

theorem Dates.processedDates_pairwise_le (datetimes : List Int) (args : RunArgs)
    (h : args.reverse = false) :
    (Dates.processedDates datetimes args).Pairwise (· ≤ ·) := by
  unfold Dates.processedDates
  rw [h]
  have hsorted : (List.insertionSort (· ≤ ·) datetimes).Pairwise (· ≤ ·) :=
    List.sorted_insertionSort (· ≤ ·) datetimes
  have h1 : ∀ l : List Int, l.Pairwise (· ≤ ·) →
      (match args.startArg with
        | some s => l.filter (fun d => s ≤ d)
        | none => l).Pairwise (· ≤ ·) := by
    intro l hl
    cases args.startArg with
    | none => exact hl
    | some s => exact hl.filter _
  have h2 : ∀ l : List Int, l.Pairwise (· ≤ ·) →
      (match args.endArg with
        | some e => l.filter (fun d => d ≤ e)
        | none => l).Pairwise (· ≤ ·) := by
    intro l hl
    cases args.endArg with
    | none => exact hl
    | some e => exact hl.filter _
  have h3 := h2 _ (h1 _ hsorted)
  simp only [if_neg (by simp : ¬(false = true))]
  cases args.take with
  | none => exact h3
  | some t =>
    dsimp only
    by_cases ht : t = 0
    · rw [if_pos ht]
      exact h3
    · rw [if_neg ht]
      exact h3.sublist (List.take_sublist t _)

theorem Dates.processedDates_pairwise_ge (datetimes : List Int) (args : RunArgs)
    (h : args.reverse = true) :
    (Dates.processedDates datetimes args).Pairwise (fun a b => b ≤ a) := by
  unfold Dates.processedDates
  rw [h]
  have hsorted : (List.insertionSort (· ≤ ·) datetimes).Pairwise (· ≤ ·) :=
    List.sorted_insertionSort (· ≤ ·) datetimes
  have h1 : ∀ l : List Int, l.Pairwise (· ≤ ·) →
      (match args.startArg with
        | some s => l.filter (fun d => s ≤ d)
        | none => l).Pairwise (· ≤ ·) := by
    intro l hl
    cases args.startArg with
    | none => exact hl
    | some s => exact hl.filter _
  have h2 : ∀ l : List Int, l.Pairwise (· ≤ ·) →
      (match args.endArg with
        | some e => l.filter (fun d => d ≤ e)
        | none => l).Pairwise (· ≤ ·) := by
    intro l hl
    cases args.endArg with
    | none => exact hl
    | some e => exact hl.filter _
  have h3 : (match args.endArg with
      | some e => (match args.startArg with
          | some s => (List.insertionSort (· ≤ ·) datetimes).filter (fun d => s ≤ d)
          | none => List.insertionSort (· ≤ ·) datetimes).filter (fun d => d ≤ e)
      | none => match args.startArg with
          | some s => (List.insertionSort (· ≤ ·) datetimes).filter (fun d => s ≤ d)
          | none => List.insertionSort (· ≤ ·) datetimes).reverse.Pairwise
        (fun a b => b ≤ a) := by
    rw [List.pairwise_reverse]
    exact h2 _ (h1 _ hsorted)
  simp only [if_pos rfl]
  cases args.take with
  | none => exact h3
  | some t =>
    dsimp only
    by_cases ht : t = 0
    · rw [if_pos ht]
      exact h3
    · rw [if_neg ht]
      exact h3.sublist (List.take_sublist t _)

theorem Dates.processedDates_nodup (datetimes : List Int) (args : RunArgs)
    (h : datetimes.Nodup) : (Dates.processedDates datetimes args).Nodup := by
  unfold Dates.processedDates
  have hsorted : (List.insertionSort (· ≤ ·) datetimes).Nodup :=
    ((List.perm_insertionSort (· ≤ ·) datetimes).nodup_iff).mpr h
  have h1 : ∀ l : List Int, l.Nodup →
      (match args.startArg with
        | some s => l.filter (fun d => s ≤ d)
        | none => l).Nodup := by
    intro l hl
    cases args.startArg with
    | none => exact hl
    | some s => exact hl.filter _
  have h2 : ∀ l : List Int, l.Nodup →
      (match args.endArg with
        | some e => l.filter (fun d => d ≤ e)
        | none => l).Nodup := by
    intro l hl
    cases args.endArg with
    | none => exact hl
    | some e => exact hl.filter _
  have h3 := h2 _ (h1 _ hsorted)
  have h4 : (if args.reverse = true then
      (match args.endArg with
        | some e => (match args.startArg with
            | some s => (List.insertionSort (· ≤ ·) datetimes).filter (fun d => s ≤ d)
            | none => List.insertionSort (· ≤ ·) datetimes).filter (fun d => d ≤ e)
        | none => match args.startArg with
            | some s => (List.insertionSort (· ≤ ·) datetimes).filter (fun d => s ≤ d)
            | none => List.insertionSort (· ≤ ·) datetimes).reverse
      else (match args.endArg with
        | some e => (match args.startArg with
            | some s => (List.insertionSort (· ≤ ·) datetimes).filter (fun d => s ≤ d)
            | none => List.insertionSort (· ≤ ·) datetimes).filter (fun d => d ≤ e)
        | none => match args.startArg with
            | some s => (List.insertionSort (· ≤ ·) datetimes).filter (fun d => s ≤ d)
            | none => List.insertionSort (· ≤ ·) datetimes)).Nodup := by
    by_cases hr : args.reverse = true
    · rw [if_pos hr, List.nodup_reverse]
      exact h3
    · rw [if_neg hr]
      exact h3
  cases args.take with
  | none => exact h4
  | some t =>
    dsimp only
    by_cases ht : t = 0
    · rw [if_pos ht]
      exact h4
    · rw [if_neg ht]
      exact h4.sublist (List.take_sublist t _)

/-- C8: running the `Dates` generator with `start`/`end` bounds emits
exactly the values of the unbounded run that lie within the bounds, in
the same order. -/
theorem claim_C8_bounded_window (datetimes : List Int) (s e : Int) :
    Dates.run datetimes ⟨some s, some e, none, false⟩ [] =
      (Dates.run datetimes ⟨none, none, none, false⟩ []).filter
        (fun d => decide (s ≤ d ∧ d ≤ e)) := by
  rw [Dates.run_no_instrs, Dates.run_no_instrs]
  unfold Dates.processedDates
  dsimp only
  rw [List.filter_filter]
  have hpred : ∀ a : Int,
      ((decide (a ≤ e)) && (decide (s ≤ a))) = decide (s ≤ a ∧ a ≤ e) := by
    intro a
    by_cases h1 : s ≤ a
    all_goals by_cases h2 : a ≤ e
    all_goals simp [h1, h2]
  simp only [hpred]
  simp

/-- C2 is refuted by a date set containing the same instant twice: the
forward traversal emits the duplicate consecutively, so consecutive
emitted values are not strictly increasing. -/
theorem claim_C2_counterexample :
    Dates.run [5, 5] ⟨none, none, none, false⟩ [] = [5, 5] ∧
      ¬ List.Chain' (· < ·) (Dates.run [5, 5] ⟨none, none, none, false⟩ []) := by
  have h : Dates.run [5, 5] ⟨none, none, none, false⟩ [] = [5, 5] := by
    rw [Dates.run_no_instrs]
    rfl
  refine ⟨h, ?_⟩
  rw [h]
  simp [List.chain'_cons, List.chain'_singleton]

/-- `UniqueOperator#_run` for a plainly pulled traversal (no resume
instructions): each pulled value is yielded, then the upstream is
advanced past every immediately following value equal to the one just
yielded (`stream.value.isEqual(lastValue)`), collapsing consecutive
duplicates of the sorted upstream.  The upstream helpers
`IterableWrapper`/`streamPastEnd` (whose file is not part of the
provided sources) are modelled from the spec: the wrapped stream is a
list, `picked` drops its head, and with no end bound the stream is past
the end exactly when it is exhausted. -/
def UniqueOperator.run : List Int → List Int
  | [] => []
  | x :: rest => x :: UniqueOperator.run (rest.dropWhile (fun y => y == x))
termination_by l => l.length
decreasing_by
  exact Nat.lt_succ_of_le (List.Sublist.length_le (List.dropWhile_sublist _))

theorem dropWhile_head_not (p : Int → Bool) :
    ∀ l : List Int, ∀ y ∈ (l.dropWhile p).head?, p y = false := by
  intro l
  induction l with
  | nil => intro y hy; simp at hy
  | cons x rest ih =>
    intro y hy
    rw [List.dropWhile_cons] at hy
    by_cases hx : p x
    · rw [if_pos hx] at hy
      exact ih y hy
    · rw [if_neg hx] at hy
      simp at hy
      rw [← hy]
      simp [hx]

theorem UniqueOperator.run_head : ∀ l : List Int, (UniqueOperator.run l).head? = l.head? := by
  intro l
  cases l with
  | nil => simp [UniqueOperator.run]
  | cons x rest => simp [UniqueOperator.run]

theorem UniqueOperator.run_chain_ne_aux :
    ∀ (n : Nat) (l : List Int), l.length ≤ n → (UniqueOperator.run l).Chain' (· ≠ ·) := by
  intro n
  induction n with
  | zero =>
    intro l hl
    have hnil : l = [] := List.length_eq_zero.mp (by omega)
    subst hnil
    simp [UniqueOperator.run]
  | succ n ih =>
    intro l hl
    cases l with
    | nil => simp [UniqueOperator.run]
    | cons x rest =>
      have hdlen : (rest.dropWhile (fun y => y == x)).length ≤ rest.length :=
        (List.dropWhile_sublist _).length_le
      simp only [UniqueOperator.run, List.chain'_cons']
      constructor
      · intro b hb
        rw [UniqueOperator.run_head] at hb
        have := dropWhile_head_not (fun y => y == x) rest b hb
        simp at this
        omega
      · exact ih _ (by simp at hl; omega)

theorem UniqueOperator.run_chain_ne (l : List Int) :
    (UniqueOperator.run l).Chain' (· ≠ ·) :=
  UniqueOperator.run_chain_ne_aux l.length l le_rfl

theorem UniqueOperator.run_eq_self_aux :
    ∀ (n : Nat) (l : List Int), l.length ≤ n → l.Chain' (· ≠ ·) →
      UniqueOperator.run l = l := by
  intro n
  induction n with
  | zero =>
    intro l hl _
    have hnil : l = [] := List.length_eq_zero.mp (by omega)
    subst hnil
    simp [UniqueOperator.run]
  | succ n ih =>
    intro l hl hchain
    cases l with
    | nil => simp [UniqueOperator.run]
    | cons x rest =>
      simp only [UniqueOperator.run]
      rw [List.chain'_cons'] at hchain
      have hdrop : rest.dropWhile (fun y => y == x) = rest := by
        cases rest with
        | nil => rfl
        | cons r rest2 =>
          rw [List.dropWhile_cons, if_neg (by
            have := hchain.1 r (by simp)
            simp
            omega)]
      rw [hdrop, ih rest (by simp at hl; omega) hchain.2]

/-- C7: the unique (dedup) operator collapses consecutive equal values
of its sorted upstream into one, so it is idempotent on every finite
sorted stream; and a date set containing 2019-01-01T01:01:01.001 twice
and 2020-03-03T03:03:03.003 once yields, through `unique()`, each
distinct instant exactly once in ascending order. -/
theorem claim_C7_unique_idempotent :
    (∀ S : List Int, S.Sorted (· ≤ ·) →
      UniqueOperator.run (UniqueOperator.run S) = UniqueOperator.run S) ∧
    (UniqueOperator.run (Dates.run
        [JsDate.toMillis ⟨2019, 1, 1, 3661001⟩, JsDate.toMillis ⟨2019, 1, 1, 3661001⟩,
          JsDate.toMillis ⟨2020, 3, 3, 10983003⟩] ⟨none, none, none, false⟩ []) =
        [JsDate.toMillis ⟨2019, 1, 1, 3661001⟩, JsDate.toMillis ⟨2020, 3, 3, 10983003⟩] ∧
      JsDate.toMillis ⟨2019, 1, 1, 3661001⟩ < JsDate.toMillis ⟨2020, 3, 3, 10983003⟩) := by
  have ht1 : JsDate.toMillis ⟨2019, 1, 1, 3661001⟩ = 1546304461001 := by decide
  have ht2 : JsDate.toMillis ⟨2020, 3, 3, 10983003⟩ = 1583204583003 := by decide
  refine ⟨?_, ?_, ?_⟩
  · intro S _
    exact UniqueOperator.run_eq_self_aux _ _ le_rfl (UniqueOperator.run_chain_ne S)
  · rw [ht1, ht2, Dates.run_no_instrs]
    have hp : Dates.processedDates [1546304461001, 1546304461001, 1583204583003]
        ⟨none, none, none, false⟩ = [1546304461001, 1546304461001, 1583204583003] := by
      decide
    rw [hp]
    simp [UniqueOperator.run, List.dropWhile_cons]
  · rw [ht1, ht2]
    decide

/-- Witness for C7: idempotence applied at a concrete sorted stream. -/
theorem claim_C7_witness :
    UniqueOperator.run (UniqueOperator.run [1, 1, 2]) = UniqueOperator.run [1, 1, 2] :=
  claim_C7_unique_idempotent.1 [1, 1, 2] (by decide)

/-- The rule frequencies. -/
inductive Frequency where
  | YEARLY | MONTHLY | WEEKLY | DAILY | HOURLY | MINUTELY | SECONDLY
deriving DecidableEq, Repr

/-- The construction-time errors of `ByDayOfMonthRuleModule.normalizeOptions`
(a `RuleOptionError` in the source). -/
inductive RuleOptionError where
  /-- byDayOfMonth cannot be present when the frequency is WEEKLY -/
  | weeklyByDayOfMonth
  /-- byDayOfMonth values must be non-zero and within -31..31 -/
  | byDayOfMonthOutOfRange
deriving DecidableEq, Repr

/-- The options read by `ByDayOfMonthRuleModule.normalizeOptions`: the
frequency, the provided `byDayOfMonth` list (if any), and whether a
`byDayOfWeek` option is present (the normalisation only tests its
presence).  The source's `Array.isArray` check is subsumed by typing. -/
structure ByDayOfMonthOptions where
  frequency : Frequency
  byDayOfMonth : Option (List Int)
  hasByDayOfWeek : Bool
deriving DecidableEq, Repr

/-- `ByDayOfMonthRuleModule.normalizeOptions`: validates a provided
`byDayOfMonth` (rejecting it under a WEEKLY frequency and rejecting
out-of-range values), and otherwise, when neither `byDayOfMonth` nor
`byDayOfWeek` is given and the frequency is YEARLY or MONTHLY, defaults
the normalized `byDayOfMonth` to the start instant's day of month.
Returns the normalized `byDayOfMonth` assignment (`none` = left unset). -/
def ByDayOfMonthRuleModule.normalizeOptions (options : ByDayOfMonthOptions) (startDay : Int) :
    Except RuleOptionError (Option (List Int)) :=
  match options.byDayOfMonth with
  | some l =>
    if options.frequency = .WEEKLY then .error .weeklyByDayOfMonth
    else if l.any (fun num => num == 0 || decide (num < -31) || decide (num > 31)) then
      .error .byDayOfMonthOutOfRange
    else .ok (some l)
  | none =>
    if ¬options.hasByDayOfWeek = true ∧
        (options.frequency = .YEARLY ∨ options.frequency = .MONTHLY) then
      .ok (some [startDay])
    else .ok none

/-- C5: normalization raises a `RuleOptionError` exactly when
`byDayOfMonth` is present with a WEEKLY frequency or contains an
out-of-range value; and when neither `byDayOfMonth` nor `byDayOfWeek`
is given and the frequency is YEARLY or MONTHLY, the normalized options
gain the implicit constraint `byDayOfMonth = [start day-of-month]`. -/
theorem claim_C5_normalize_options (o : ByDayOfMonthOptions) (startDay : Int) :
    ((∃ err, ByDayOfMonthRuleModule.normalizeOptions o startDay = .error err) ↔
      (∃ l, o.byDayOfMonth = some l ∧
        (o.frequency = .WEEKLY ∨ ∃ v ∈ l, v = 0 ∨ v < -31 ∨ v > 31))) ∧
    (o.byDayOfMonth = none → o.hasByDayOfWeek = false →
      (o.frequency = .YEARLY ∨ o.frequency = .MONTHLY) →
      ByDayOfMonthRuleModule.normalizeOptions o startDay = .ok (some [startDay])) := by
  constructor
  · unfold ByDayOfMonthRuleModule.normalizeOptions
    cases hb : o.byDayOfMonth with
    | none =>
      constructor
      · intro ⟨err, herr⟩
        dsimp only at herr
        split_ifs at herr <;> simp at herr
      · intro ⟨l, hl, _⟩
        simp at hl
    | some l =>
      constructor
      · intro ⟨err, herr⟩
        dsimp only at herr
        refine ⟨l, rfl, ?_⟩
        by_cases hw : o.frequency = .WEEKLY
        · exact Or.inl hw
        · rw [if_neg hw] at herr
          refine Or.inr ?_
          by_cases hany : l.any (fun num => num == 0 || decide (num < -31) || decide (num > 31))
          · rw [List.any_eq_true] at hany
            obtain ⟨v, hv, hvp⟩ := hany
            refine ⟨v, hv, ?_⟩
            simp at hvp
            omega
          · rw [if_neg hany] at herr
            simp at herr
      · intro ⟨l2, hl2, hbad⟩
        dsimp only
        injection hl2 with h12
        subst h12
        rcases hbad with hw | ⟨v, hv, hvp⟩
        · rw [if_pos hw]
          exact ⟨.weeklyByDayOfMonth, rfl⟩
        · by_cases hw : o.frequency = .WEEKLY
          · rw [if_pos hw]
            exact ⟨.weeklyByDayOfMonth, rfl⟩
          · rw [if_neg hw, if_pos (by
              rw [List.any_eq_true]
              refine ⟨v, hv, ?_⟩
              simp
              omega)]
            exact ⟨.byDayOfMonthOutOfRange, rfl⟩
  · intro hnone hweek hfreq
    unfold ByDayOfMonthRuleModule.normalizeOptions
    rw [hnone]
    rw [if_pos ⟨by rw [hweek]; simp, hfreq⟩]

/-- Witness for C5: MONTHLY frequency with no day-level constraint gains
the start's day-of-month; WEEKLY with byDayOfMonth errors. -/
theorem claim_C5_witness :
    ByDayOfMonthRuleModule.normalizeOptions ⟨.MONTHLY, none, false⟩ 15 = .ok (some [15]) ∧
    (∃ err, ByDayOfMonthRuleModule.normalizeOptions ⟨.WEEKLY, some [10], false⟩ 15 =
      .error err) :=
  ⟨(claim_C5_normalize_options ⟨.MONTHLY, none, false⟩ 15).2 rfl rfl (Or.inr rfl),
   (claim_C5_normalize_options ⟨.WEEKLY, some [10], false⟩ 15).1.mpr
     ⟨[10], rfl, Or.inl rfl⟩⟩

/-- The result of a TypeScript `set`-style update method: either the
receiver itself (`return this`) or a freshly constructed object
(`return new ...`). -/
inductive SetResult (α : Type) where
  | receiver
  | fresh (value : α)
deriving DecidableEq, Repr

/-- The configuration of a `Rule` touched by `Rule#set`: its provided
options (opaque here) and its timezone. -/
structure RuleCfg (Opt : Type) where
  options : Opt
  timezone : Option String

/-- The `prop` argument of `Rule#set`: the timezone, the whole options
object, or a single rule-option key (modelled as the update it performs
on the cloned options). -/
inductive RuleSetProp (Opt : Type) where
  | timezone (value : Option String)
  | options (value : Opt)
  | optionKey (update : Opt → Opt)

/-- `Rule#set` (the `Rule` class of the core generators): setting the
timezone to the current value returns the receiver itself; every other
call builds a new `Rule` from a clone of the options. -/
def Rule.set {Opt : Type} (cfg : RuleCfg Opt) : RuleSetProp Opt → SetResult (RuleCfg Opt)
  | .timezone v => if v = cfg.timezone then .receiver else .fresh { cfg with timezone := v }
  | .options v => .fresh { cfg with options := v }
  | .optionKey update => .fresh { cfg with options := update cfg.options }

/-- A date adapter held by a `Dates` set: its millisecond value and its
duration. -/
structure AdapterV where
  value : Int
  duration : Int
deriving DecidableEq, Repr

/-- The configuration of a `Dates` object touched by `Dates#set`. -/
structure DatesCfg where
  timezone : Option String
  dates : List AdapterV
deriving DecidableEq, Repr

/-- The `prop` argument of `Dates#set`. -/
inductive DatesSetProp where
  | timezone (value : Option String) (keepLocalTime : Bool)
  | dates (value : List AdapterV)
  | duration (value : Option Int)
deriving DecidableEq, Repr

/-- `Dates#set` (`src/packages/core/src/generators/dates.ts`): setting
the timezone to the current value returns the receiver itself; other
calls construct a new `Dates`.  `remapLocal` stands for the
backend-dependent `fromJSON` conversion used by `keepLocalTime`. -/
def Dates.set (remapLocal : List AdapterV → List AdapterV) (cfg : DatesCfg) :
    DatesSetProp → SetResult DatesCfg
  | .timezone v keep =>
    if v = cfg.timezone then .receiver
    else .fresh { timezone := v, dates := if keep then remapLocal cfg.dates else cfg.dates }
  | .dates l => .fresh { cfg with dates := l }
  | .duration v =>
    .fresh { cfg with dates := cfg.dates.map (fun a => { a with duration := v.getD 0 }) }

/-- C9 is refuted by `set` with the current timezone: the call returns
the receiver itself (`return this` in the source), not a new object. -/
theorem claim_C9_counterexample :
    Dates.set id ⟨some "UTC", []⟩ (.timezone (some "UTC") false) = SetResult.receiver := by
  simp [Dates.set]

/-- `Dates#add`: always constructs a new `Dates` around the extended
adapter list. -/
def Dates.addCfg (cfg : DatesCfg) (value : AdapterV) : DatesCfg :=
  { cfg with dates := cfg.dates ++ [value] }

/-- `Dates#add` as seen by the caller. -/
def Dates.add (cfg : DatesCfg) (value : AdapterV) : SetResult DatesCfg :=
  .fresh (Dates.addCfg cfg value)

/-- `Dates#remove`: finds the first adapter whose `valueOf` equals the
input's and splices it out (if any), always constructing a new
`Dates`. -/
def Dates.removeCfg (cfg : DatesCfg) (value : AdapterV) : DatesCfg :=
  { cfg with dates :=
      match cfg.dates.findIdx? (fun d => d.value == value.value) with
      | some i => cfg.dates.eraseIdx i
      | none => cfg.dates }

/-- `Dates#remove` as seen by the caller. -/
def Dates.remove (cfg : DatesCfg) (value : AdapterV) : SetResult DatesCfg :=
  .fresh (Dates.removeCfg cfg value)

/-- The configuration of a `Schedule` touched by its `add`/`remove`/`set`
methods (`src/unnamed/part_003`).  Rule objects are carried as opaque
handles of a type `R`; the JS reference identity used by
`remove('rrule', …)` (`rule !== value`) is modelled by equality on the
handles. -/
structure ScheduleCfg (R : Type) where
  timezone : Option String
  rrules : List R
  exrules : List R
  rdates : DatesCfg
  exdates : DatesCfg

/-- The `prop` argument of `Schedule#set`. -/
inductive ScheduleSetProp (R : Type) where
  | timezone (value : Option String) (keepLocalTime : Bool)
  | rrules (value : List R)
  | exrules (value : List R)
  | rdates (value : DatesCfg)
  | exdates (value : DatesCfg)

/-- `Schedule#set`: the timezone case returns the receiver only when the
value equals the current timezone **and** `keepLocalTime` is unset
(`value === this.timezone && !options.keepLocalTime`); with
`keepLocalTime` set, the rules and date sets are remapped through the
backend (`remapRule`/`remapDates` stand for the
`rule.set('timezone', …)` / `dates.set('timezone', …)` conversions) and
a new `Schedule` is constructed. -/
def Schedule.set {R : Type} (remapRule : Option String → R → R)
    (remapDates : Option String → DatesCfg → DatesCfg) (cfg : ScheduleCfg R) :
    ScheduleSetProp R → SetResult (ScheduleCfg R)
  | .timezone v keep =>
    if v = cfg.timezone ∧ keep = false then .receiver
    else
      .fresh
        { timezone := v,
          rrules := if keep then cfg.rrules.map (remapRule v) else cfg.rrules,
          exrules := if keep then cfg.exrules.map (remapRule v) else cfg.exrules,
          rdates := if keep then remapDates v cfg.rdates else cfg.rdates,
          exdates := if keep then remapDates v cfg.exdates else cfg.exdates }
  | .rrules v => .fresh { cfg with rrules := v }
  | .exrules v => .fresh { cfg with exrules := v }
  | .rdates v => .fresh { cfg with rdates := v }
  | .exdates v => .fresh { cfg with exdates := v }

/-- The `prop`/`value` argument of `Schedule#add` and `Schedule#remove`. -/
inductive ScheduleEditProp (R : Type) where
  | rrule (value : R)
  | exrule (value : R)
  | rdate (value : AdapterV)
  | exdate (value : AdapterV)

/-- `Schedule#add`: always constructs a new `Schedule` with the rule
pushed or the date added to the respective `Dates` set. -/
def Schedule.add {R : Type} (cfg : ScheduleCfg R) :
    ScheduleEditProp R → SetResult (ScheduleCfg R)
  | .rrule r => .fresh { cfg with rrules := cfg.rrules ++ [r] }
  | .exrule r => .fresh { cfg with exrules := cfg.exrules ++ [r] }
  | .rdate v => .fresh { cfg with rdates := Dates.addCfg cfg.rdates v }
  | .exdate v => .fresh { cfg with exdates := Dates.addCfg cfg.exdates v }

/-- `Schedule#remove`: always constructs a new `Schedule`; rules are
filtered out by identity, dates removed through `Dates#remove`. -/
def Schedule.remove {R : Type} [DecidableEq R] (cfg : ScheduleCfg R) :
    ScheduleEditProp R → SetResult (ScheduleCfg R)
  | .rrule r => .fresh { cfg with rrules := cfg.rrules.filter (fun x => decide (¬x = r)) }
  | .exrule r => .fresh { cfg with exrules := cfg.exrules.filter (fun x => decide (¬x = r)) }
  | .rdate v => .fresh { cfg with rdates := Dates.removeCfg cfg.rdates v }
  | .exdate v => .fresh { cfg with exdates := Dates.removeCfg cfg.exdates v }

/-- C9 (amended): for every Rule, Dates, or Schedule configuration
object, every `add` and `remove` operation and every `set` construct
and return a new object, leaving the receiver untouched — except that
`Rule#set` and `Dates#set` of `timezone` with a value equal to the
current one return the receiver itself, and `Schedule#set` of
`timezone` returns the receiver exactly when the value equals the
current timezone and `keepLocalTime` is unset (with `keepLocalTime`
set, an equal timezone still constructs a new object).  These are the
only calls that hand back the receiver. -/
theorem claim_C9_amended :
    (∀ (Opt : Type) (cfg : RuleCfg Opt) (p : RuleSetProp Opt),
      Rule.set cfg p = .receiver ↔ p = .timezone cfg.timezone) ∧
    (∀ (remapLocal : List AdapterV → List AdapterV) (cfg : DatesCfg) (p : DatesSetProp),
      Dates.set remapLocal cfg p = .receiver ↔
        ∃ keep, p = .timezone cfg.timezone keep) ∧
    (∀ (cfg : DatesCfg) (v : AdapterV),
      Dates.add cfg v ≠ .receiver ∧ Dates.remove cfg v ≠ .receiver) ∧
    (∀ (R : Type) (remapRule : Option String → R → R)
        (remapDates : Option String → DatesCfg → DatesCfg)
        (cfg : ScheduleCfg R) (p : ScheduleSetProp R),
      Schedule.set remapRule remapDates cfg p = .receiver ↔
        p = .timezone cfg.timezone false) ∧
    (∀ (R : Type) (inst : DecidableEq R) (cfg : ScheduleCfg R) (p : ScheduleEditProp R),
      Schedule.add cfg p ≠ .receiver ∧ Schedule.remove cfg p ≠ .receiver) := by
  refine ⟨?_, ?_, ?_, ?_, ?_⟩
  · intro Opt cfg p
    cases p with
    | timezone v =>
      by_cases hv : v = cfg.timezone
      · subst hv
        simp [Rule.set]
      · simp [Rule.set, hv]
    | options v => simp [Rule.set]
    | optionKey update => simp [Rule.set]
  · intro remapLocal cfg p
    cases p with
    | timezone v keep =>
      by_cases hv : v = cfg.timezone
      · subst hv
        simp [Dates.set]
      · simp [Dates.set, hv]
    | dates l => simp [Dates.set]
    | duration v => simp [Dates.set]
  · intro cfg v
    exact ⟨by simp [Dates.add], by simp [Dates.remove]⟩
  · intro R remapRule remapDates cfg p
    cases p with
    | timezone v keep =>
      by_cases hc : v = cfg.timezone ∧ keep = false
      · obtain ⟨h1, h2⟩ := hc
        subst h1
        subst h2
        simp [Schedule.set]
      · rw [Schedule.set, if_neg hc]
        simp only [ScheduleSetProp.timezone.injEq]
        constructor
        · intro hfr
          exact absurd hfr (by simp)
        · intro hp
          exact absurd ⟨hp.1, hp.2⟩ hc
    | rrules v => simp [Schedule.set]
    | exrules v => simp [Schedule.set]
    | rdates v => simp [Schedule.set]
    | exdates v => simp [Schedule.set]
  · intro R inst cfg p
    cases p with
    | rrule r => exact ⟨by simp [Schedule.add], by simp [Schedule.remove]⟩
    | exrule r => exact ⟨by simp [Schedule.add], by simp [Schedule.remove]⟩
    | rdate v => exact ⟨by simp [Schedule.add], by simp [Schedule.remove]⟩
    | exdate v => exact ⟨by simp [Schedule.add], by simp [Schedule.remove]⟩

/-- Witness for the amended C9: setting the current timezone on a Rule
and on a Schedule (without `keepLocalTime`) returns the receiver;
`Schedule#set` of an equal timezone with `keepLocalTime` set does not,
and neither do `Dates#add` and `Schedule#add`. -/
theorem claim_C9_amended_witness :
    Rule.set (RuleCfg.mk (0 : Int) (some "UTC")) (.timezone (some "UTC")) =
      SetResult.receiver ∧
    Dates.add ⟨some "UTC", []⟩ ⟨0, 0⟩ ≠ SetResult.receiver ∧
    Schedule.set (fun _ r => r) (fun _ d => d)
        (ScheduleCfg.mk (some "UTC") ([] : List Int) [] ⟨some "UTC", []⟩ ⟨some "UTC", []⟩)
        (.timezone (some "UTC") false) = SetResult.receiver ∧
    Schedule.set (fun _ r => r) (fun _ d => d)
        (ScheduleCfg.mk (some "UTC") ([] : List Int) [] ⟨some "UTC", []⟩ ⟨some "UTC", []⟩)
        (.timezone (some "UTC") true) ≠ SetResult.receiver ∧
    Schedule.add
        (ScheduleCfg.mk (some "UTC") ([] : List Int) [] ⟨some "UTC", []⟩ ⟨some "UTC", []⟩)
        (.rrule 7) ≠ SetResult.receiver :=
  ⟨(claim_C9_amended.1 Int ⟨0, some "UTC"⟩ (.timezone (some "UTC"))).mpr rfl,
   (claim_C9_amended.2.2.1 ⟨some "UTC", []⟩ ⟨0, 0⟩).1,
   (claim_C9_amended.2.2.2.1 Int (fun _ r => r) (fun _ d => d)
     (ScheduleCfg.mk (some "UTC") [] [] ⟨some "UTC", []⟩ ⟨some "UTC", []⟩)
     (.timezone (some "UTC") false)).mpr rfl,
   fun h => by
    have hp := (claim_C9_amended.2.2.2.1 Int (fun _ r => r) (fun _ d => d)
      (ScheduleCfg.mk (some "UTC") [] [] ⟨some "UTC", []⟩ ⟨some "UTC", []⟩)
      (.timezone (some "UTC") true)).mp h
    exact absurd hp (by simp),
   (claim_C9_amended.2.2.2.2 Int inferInstance
     (ScheduleCfg.mk (some "UTC") [] [] ⟨some "UTC", []⟩ ⟨some "UTC", []⟩) (.rrule 7)).1⟩

/-- C3: every comparison of two Instants with differing timezone labels
raises the comparison error rather than silently coercing; with equal
labels every comparison returns the comparison of the millisecond
timestamps and raises nothing. -/
theorem claim_C3_comparisons (x y : DateTime) :
    (x.timezone ≠ y.timezone →
      x.isEqual (some y) = .error .comparedAcrossTimezones ∧
      x.isBefore y = .error .comparedAcrossTimezones ∧
      x.isBeforeOrEqual y = .error .comparedAcrossTimezones ∧
      x.isAfter y = .error .comparedAcrossTimezones ∧
      x.isAfterOrEqual y = .error .comparedAcrossTimezones) ∧
    (x.timezone = y.timezone →
      x.isEqual (some y) = .ok (x.valueOf == y.valueOf) ∧
      x.isBefore y = .ok (decide (x.valueOf < y.valueOf)) ∧
      x.isBeforeOrEqual y = .ok (decide (x.valueOf ≤ y.valueOf)) ∧
      x.isAfter y = .ok (decide (y.valueOf < x.valueOf)) ∧
      x.isAfterOrEqual y = .ok (decide (y.valueOf ≤ x.valueOf))) := by
  constructor
  · intro hne
    simp [DateTime.isEqual, DateTime.isBefore, DateTime.isBeforeOrEqual, DateTime.isAfter,
      DateTime.isAfterOrEqual, assertSameTimeZone, hne]
  · intro heq
    simp [DateTime.isEqual, DateTime.isBefore, DateTime.isBeforeOrEqual, DateTime.isAfter,
      DateTime.isAfterOrEqual, assertSameTimeZone, heq]

/-- Witness for C3: a UTC instant compared with a floating (null
timezone) instant errors; compared with another UTC instant it returns
the timestamp comparison. -/
theorem claim_C3_witness :
    (DateTime.mk ⟨2019, 1, 1, 0⟩ (some "UTC") 0).isEqual
        (some (DateTime.mk ⟨2019, 1, 1, 0⟩ none 0)) = .error .comparedAcrossTimezones ∧
    (DateTime.mk ⟨2019, 1, 1, 0⟩ (some "UTC") 0).isEqual
        (some (DateTime.mk ⟨2019, 1, 1, 0⟩ (some "UTC") 0)) =
      .ok ((DateTime.mk ⟨2019, 1, 1, 0⟩ (some "UTC") 0).valueOf ==
        (DateTime.mk ⟨2019, 1, 1, 0⟩ (some "UTC") 0).valueOf) :=
  ⟨((claim_C3_comparisons _ _).1 (by simp)).1,
   ((claim_C3_comparisons _ _).2 rfl).1⟩

/-- C10: calling `isEqual` with a missing argument returns `false`
without raising, because the missing-argument check precedes the
timezone assertion. -/
theorem claim_C10_isEqual_missing_argument (d : DateTime) :
    d.isEqual none = .ok false := rfl

/-- A sequence of `ResultPipe#run` invocations within one traversal,
threading the pipe's private state: each input is the
(`date`, `invalidDate`) pair of one call; an `emit` outcome contributes
the emitted date, an invalid-with-repair outcome continues without
emitting, and any other outcome (`null`, a thrown error) ends the
traversal.  The returned list is the sequence of Instants the pipe hands
to the consumer. -/
def ResultPipe.runSeq (controllerInvalid : Bool) (endOpt : Option Int) :
    ResultPipeState → List (Int × Bool) → List Int
  | _, [] => []
  | s, (date, invalidDate) :: rest =>
    match ResultPipe.run controllerInvalid endOpt s date invalidDate with
    | (.emit d, s2) => d :: ResultPipe.runSeq controllerInvalid endOpt s2 rest
    | (.recurse _, s2) => ResultPipe.runSeq controllerInvalid endOpt s2 rest
    | _ => []

theorem ResultPipe.run_emit_inv (ci : Bool) (endOpt : Option Int) (s : ResultPipeState)
    (date : Int) (inv : Bool) (d : Int) (s2 : ResultPipeState)
    (h : ResultPipe.run ci endOpt s date inv = (.emit d, s2)) :
    d = date ∧ s2 = ⟨0, some date⟩ ∧
      ∀ prev, s.previousIterationDate = some prev → prev < date := by
  unfold ResultPipe.run at h
  split_ifs at h with h1 h2 h3
  · simp at h
  · simp at h
  · dsimp only at h
    split_ifs at h <;> simp at h
  · cases hs : s.previousIterationDate with
    | none =>
      rw [hs] at h
      dsimp only at h
      simp at h
      exact ⟨h.1.symm, h.2.symm, fun prev hp => by simp [hs] at hp⟩
    | some prev =>
      rw [hs] at h
      dsimp only at h
      split_ifs at h with h4
      · simp at h
      · simp at h
        exact ⟨h.1.symm, h.2.symm, fun p hp => by
          injection hp with hpe
          omega⟩

theorem ResultPipe.run_recurse_prev (ci : Bool) (endOpt : Option Int) (s : ResultPipeState)
    (date : Int) (inv : Bool) (d : Int) (s2 : ResultPipeState)
    (h : ResultPipe.run ci endOpt s date inv = (.recurse d, s2)) :
    s2.previousIterationDate = s.previousIterationDate := by
  unfold ResultPipe.run at h
  split_ifs at h with h1 h2 h3
  · simp at h
  · simp at h
  · dsimp only at h
    split_ifs at h with h4
    · simp at h
    · simp at h
      rw [← h.2]
  · cases hs : s.previousIterationDate with
    | none =>
      rw [hs] at h
      dsimp only at h
      simp at h
    | some prev =>
      rw [hs] at h
      dsimp only at h
      split_ifs at h <;> simp at h

theorem ResultPipe.runSeq_head_gt (ci : Bool) (endOpt : Option Int) :
    ∀ (inputs : List (Int × Bool)) (s : ResultPipeState) (prev : Int),
      s.previousIterationDate = some prev →
      ∀ y ∈ (ResultPipe.runSeq ci endOpt s inputs).head?, prev < y := by
  intro inputs
  induction inputs with
  | nil =>
    intro s prev _ y hy
    simp [ResultPipe.runSeq] at hy
  | cons p rest ih =>
    intro s prev hs y hy
    obtain ⟨date, inv⟩ := p
    rw [ResultPipe.runSeq] at hy
    cases hrun : ResultPipe.run ci endOpt s date inv with
    | mk o s2 =>
      rw [hrun] at hy
      cases o with
      | emit d =>
        simp at hy
        obtain ⟨hd, _, hgt⟩ := ResultPipe.run_emit_inv ci endOpt s date inv d s2 hrun
        have := hgt prev hs
        omega
      | recurse d =>
        exact ih s2 prev
          ((ResultPipe.run_recurse_prev ci endOpt s date inv d s2 hrun).trans hs) y hy
      | invalidControllerError => simp at hy
      | exhausted => simp at hy
      | pipeError => simp at hy

theorem ResultPipe.runSeq_chain_lt (ci : Bool) (endOpt : Option Int) :
    ∀ (inputs : List (Int × Bool)) (s : ResultPipeState),
      (ResultPipe.runSeq ci endOpt s inputs).Chain' (· < ·) := by
  intro inputs
  induction inputs with
  | nil =>
    intro s
    rw [ResultPipe.runSeq]
    simp
  | cons p rest ih =>
    intro s
    obtain ⟨date, inv⟩ := p
    rw [ResultPipe.runSeq]
    cases hrun : ResultPipe.run ci endOpt s date inv with
    | mk o s2 =>
      cases o with
      | emit d =>
        rw [List.chain'_cons']
        obtain ⟨hd, hs2, _⟩ := ResultPipe.run_emit_inv ci endOpt s date inv d s2 hrun
        refine ⟨fun y hy => ?_, ih s2⟩
        have := ResultPipe.runSeq_head_gt ci endOpt rest s2 date (by rw [hs2]) y hy
        omega
      | recurse d => exact ih s2
      | invalidControllerError => simp
      | exhausted => simp
      | pipeError => simp

theorem UniqueOperator.run_sublist_aux :
    ∀ (n : Nat) (l : List Int), l.length ≤ n → (UniqueOperator.run l).Sublist l := by
  intro n
  induction n with
  | zero =>
    intro l hl
    have hnil : l = [] := List.length_eq_zero.mp (by omega)
    subst hnil
    simp [UniqueOperator.run]
  | succ n ih =>
    intro l hl
    cases l with
    | nil => simp [UniqueOperator.run]
    | cons x rest =>
      have hsub : (rest.dropWhile (fun y => y == x)).Sublist rest :=
        List.dropWhile_sublist _
      have hdlen : (rest.dropWhile (fun y => y == x)).length ≤ rest.length :=
        hsub.length_le
      simp only [UniqueOperator.run]
      exact List.Sublist.cons₂ x ((ih _ (by simp at hl; omega)).trans hsub)

theorem UniqueOperator.run_sublist (l : List Int) : (UniqueOperator.run l).Sublist l :=
  UniqueOperator.run_sublist_aux l.length l le_rfl

theorem chain'_and_of_chain' {α : Type} {R S : α → α → Prop} :
    ∀ l : List α, l.Chain' R → l.Chain' S → l.Chain' (fun a b => R a b ∧ S a b) := by
  intro l
  induction l with
  | nil => intro _ _; simp
  | cons x rest ih =>
    intro h1 h2
    rw [List.chain'_cons'] at h1 h2 ⊢
    exact ⟨fun b hb => ⟨h1.1 b hb, h2.1 b hb⟩, ih h1.2 h2.2⟩

theorem UniqueOperator.run_chain_lt (S : List Int) (hs : S.Sorted (· ≤ ·)) :
    (UniqueOperator.run S).Chain' (· < ·) := by
  have hle : (UniqueOperator.run S).Pairwise (· ≤ ·) :=
    hs.sublist (UniqueOperator.run_sublist S)
  have hne := UniqueOperator.run_chain_ne S
  have := chain'_and_of_chain' (UniqueOperator.run S) hle.chain' hne
  exact this.imp (fun _ _ h => lt_of_le_of_ne h.1 h.2)

/-- C2 (amended): strict monotonicity holds where the sources enforce
it, and fails exactly where the counterexample shows.  (i) The Rule
generator's final pipe stage makes the emitted Instants of any sequence
of pipe runs strictly increasing: a valid candidate at or before the
previous emission ends the traversal (`null`) instead of being emitted.
(ii) The unique stream operator emits strictly increasing values over
any sorted upstream.  (iii) The `Dates` generator's traversals without
skip-ahead resume instructions are monotonic in the traversal
direction, strictly so when the stored dates are pairwise distinct —
but a date set containing equal Instants emits them consecutively (the
counterexample), and (iv) a skip-ahead resume pointing at or before the
last emitted value re-emits earlier values: a two-date traversal
resumed with a skip to the past after the second value emits the whole
set again. -/
theorem claim_C2_amended (datetimes : List Int) (args : RunArgs) :
    (∀ (controllerInvalid : Bool) (endOpt : Option Int) (s : ResultPipeState)
        (inputs : List (Int × Bool)),
      (ResultPipe.runSeq controllerInvalid endOpt s inputs).Chain' (· < ·)) ∧
    (∀ S : List Int, S.Sorted (· ≤ ·) → (UniqueOperator.run S).Chain' (· < ·)) ∧
    ((args.reverse = false →
      (Dates.run datetimes args []).Chain' (· ≤ ·) ∧
      (datetimes.Nodup → (Dates.run datetimes args []).Chain' (· < ·))) ∧
    (args.reverse = true →
      (Dates.run datetimes args []).Chain' (fun a b => b ≤ a) ∧
      (datetimes.Nodup → (Dates.run datetimes args []).Chain' (fun a b => b < a)))) ∧
    Dates.run [1, 2] ⟨none, none, none, false⟩ [none, some 0] = [1, 2, 1, 2] := by
  refine ⟨fun ci endOpt s inputs => ResultPipe.runSeq_chain_lt ci endOpt inputs s,
    fun S hS => UniqueOperator.run_chain_lt S hS, ?_, ?_⟩
  case refine_2 =>
    have hp : Dates.processedDates [1, 2] ⟨none, none, none, false⟩ = [1, 2] := by decide
    unfold Dates.run
    rw [hp]
    simp [Dates.runLoop, skipBeyond]
  rw [Dates.run_no_instrs]
  constructor
  · intro hrev
    have hle := Dates.processedDates_pairwise_le datetimes args hrev
    refine ⟨hle.chain', fun hnd => ?_⟩
    have hnodup := Dates.processedDates_nodup datetimes args hnd
    have hlt : (Dates.processedDates datetimes args).Pairwise (· < ·) :=
      (hle.and hnodup).imp (fun h => lt_of_le_of_ne h.1 h.2)
    exact hlt.chain'
  · intro hrev
    have hge := Dates.processedDates_pairwise_ge datetimes args hrev
    refine ⟨hge.chain', fun hnd => ?_⟩
    have hnodup := Dates.processedDates_nodup datetimes args hnd
    have hgt : (Dates.processedDates datetimes args).Pairwise (fun a b => b < a) :=
      (hge.and hnodup).imp (fun h => lt_of_le_of_ne h.1 (Ne.symm h.2))
    exact hgt.chain'

/-- Witness for the amended C2 at concrete inputs: a pipe-run sequence,
a sorted stream through unique, and a `Dates` traversal in both
directions. -/
theorem claim_C2_amended_witness :
    (ResultPipe.runSeq false none ⟨0, none⟩ [(1, false), (2, false)]).Chain' (· < ·) ∧
    (UniqueOperator.run [1, 1, 2]).Chain' (· < ·) ∧
    (Dates.run [3, 1, 2] ⟨none, none, none, false⟩ []).Chain' (· < ·) ∧
    (Dates.run [3, 1, 2] ⟨none, none, none, true⟩ []).Chain' (fun a b => b < a) :=
  ⟨(claim_C2_amended [3, 1, 2] ⟨none, none, none, false⟩).1 false none ⟨0, none⟩
      [(1, false), (2, false)],
   (claim_C2_amended [3, 1, 2] ⟨none, none, none, false⟩).2.1 [1, 1, 2] (by decide),
   ((claim_C2_amended [3, 1, 2] ⟨none, none, none, false⟩).2.2.1.1 rfl).2 (by decide),
   ((claim_C2_amended [3, 1, 2] ⟨none, none, none, true⟩).2.2.1.2 rfl).2 (by decide)⟩
